import Mathlib

/-!
Verification of the routing and load-balancing core of the pike reverse proxy.

The definitions below are a shallow embedding of the Go source:
* `src/unnamed/part_001` (package proxy): the `Director` struct and its
  methods (`Select`, `Match`, `HealthCheck`, the add/remove operations,
  `RefreshPriority`, `doCheck`, `StartHealthCheck`).
* `src/upstream/upstream.go` (package upstream): `Upstream`,
  `createUpstreamFromBackend`, `createProxyHandler`, `Upstream.Match`.

Conventions of the embedding:
* Go `uint32` values are `Nat` reduced modulo `4294967296` (2 to the 32)
  exactly where the Go code can overflow or truncate.
* Fallible code returns `Option`: `none` models a Go runtime panic
  (index out of range or integer divide by zero).
* Network effects are parameters: the per-attempt probe outcome of a
  health check is an oracle `Nat -> Option Nat` (`none` = transport
  error, `some code` = HTTP status code), and `regexp.Match` is a
  parameter `rm : String -> String -> Bool` of `Director.Match`.
* Go strings are Lean `String`; byte-level operations are modelled on
  the character list `String.data`, which coincides with the UTF-8
  bytes for the ASCII strings appearing in proxy configurations.
-/

set_option maxRecDepth 4096

namespace Pike

/-- Model of `hash/fnv` New32a + Write + Sum32 over a byte sequence:
32-bit FNV-1a with offset basis 2166136261 and multiplier 16777619. -/
def fnv32a (bytes : List Nat) : Nat :=
  bytes.foldl (fun h b => ((h ^^^ b) * 16777619) % 4294967296) 2166136261

/-- Byte sequence of a Go string (character codepoints; equal to the
UTF-8 bytes for ASCII strings). -/
def strBytes (s : String) : List Nat :=
  s.data.map Char.toNat

/-- Model of `hash(s string) uint32` defined identically in
`src/unnamed/part_001` and `src/upstream/upstream.go`. -/
def fnvHash (s : String) : Nat :=
  fnv32a (strBytes s)

/-- Model of `strings.HasPrefix` (Go) at the byte level. -/
def goHasPrefix (s pre : String) : Bool :=
  pre.data.isPrefixOf s.data

/-- Model of `dash.IncludesString`: membership test on a string slice. -/
def includesString (l : List String) (s : String) : Bool :=
  l.contains s

/-- Model of `dash.FindStringIndex`: index of the first occurrence of
`s`, `none` standing for the Go return value -1. -/
def findStringIndex : List String → String → Option Nat
  | [], _ => none
  | x :: xs, s => if x == s then some 0 else (findStringIndex xs s).map (· + 1)

/-- The slice splice `append(l[0:i], l[i+1:]...)` performed by the Go
remove operations after a successful `dash.FindStringIndex` lookup. -/
def spliceOut (l : List String) (s : String) : List String :=
  match findStringIndex l s with
  | none => l
  | some i => l.take i ++ l.drop (i + 1)

/-- The `Director` struct of `src/unnamed/part_001` (the `sync.RWMutex`
field is not part of the sequential model; `roubin` is the `uint32`
round-robin counter). -/
structure Director where
  Name : String
  Policy : String
  Ping : String
  Backends : List String
  availableBackends : List String
  Hosts : List String
  Prefixs : List String
  Priority : Int
  roubin : Nat
deriving DecidableEq

/-- The request context capabilities used by the selection functions of
`src/unnamed/part_001`: the resolved client IP (`echo.Context.RealIP`)
and the value drawn by `rand.Uint32` for this call. -/
structure Ctx where
  realIP : String
  randVal : Nat

/-- The `selectFuncMap` registry after the `init` function of
`src/unnamed/part_001` has run: policies `first`, `random`,
`roundRobin` and `ipHash`.  A selection function returns the chosen
`uint32` together with the director (only `roundRobin` mutates it, by
the atomic increment of `roubin`). -/
def selectFuncMap : String → Option (Ctx → Director → Nat × Director)
  | "first" => some (fun _ d => (0, d))
  | "random" => some (fun c d => (c.randVal % 4294967296, d))
  | "roundRobin" => some (fun _ d =>
      let r := (d.roubin + 1) % 4294967296
      (r, { d with roubin := r }))
  | "ipHash" => some (fun c d => (fnvHash c.realIP, d))
  | _ => none

/-- `Director.Select` of `src/unnamed/part_001`.  With an unregistered
policy the Go code returns the empty string (`some ""`).  Otherwise it
takes the live snapshot, computes `count := uint32(len(snapshot))`,
invokes the policy function, and evaluates
`availableBackends[index%count]`: when `count = 0` the Go expression
`index % count` is an integer divide by zero, a runtime panic, which
the model renders as `none`. -/
def Director.Select (c : Ctx) (d : Director) : Option String × Director :=
  match selectFuncMap d.Policy with
  | none => (some "", d)
  | some fn =>
    let availableBackends := d.availableBackends
    let count := availableBackends.length % 4294967296
    let p := fn c d
    if count = 0 then (none, p.2)
    else (availableBackends.get? (p.1 % count), p.2)

/-- `n` consecutive calls of `Director.Select`, threading the director
state (the round-robin counter) through the calls. -/
def selectN (c : Ctx) : Nat → Director → List (Option String) × Director
  | 0, d => ([], d)
  | Nat.succ n, d =>
    let p := Director.Select c d
    let q := selectN c n p.2
    (p.1 :: q.1, q.2)

/-- The outputs of `n` consecutive calls of `Director.Select`. -/
def selectList (c : Ctx) (d : Director) (n : Nat) : List (Option String) :=
  (selectN c n d).1

/-- `Director.RefreshPriority`: priority starts at 8, is lowered by 4
when hosts are configured and by 2 when url prefixes are configured. -/
def Director.RefreshPriority (d : Director) : Director :=
  let p0 : Int := 8
  let p1 := if d.Hosts.length != 0 then p0 - 4 else p0
  let p2 := if d.Prefixs.length != 0 then p1 - 2 else p1
  { d with Priority := p2 }

/-- `Director.AddBackend`: append the backend unless already present. -/
def Director.AddBackend (d : Director) (backend : String) : Director :=
  if includesString d.Backends backend then d
  else { d with Backends := d.Backends ++ [backend] }

/-- `Director.RemoveBackend`: splice the backend out of `Backends` at
the index found by `dash.FindStringIndex` (no-op when absent).  Note
that it does not touch `availableBackends`. -/
def Director.RemoveBackend (d : Director) (backend : String) : Director :=
  match findStringIndex d.Backends backend with
  | none => d
  | some i => { d with Backends := d.Backends.take i ++ d.Backends.drop (i + 1) }

/-- `Director.AddAvailableBackend` (the mutex is irrelevant in the
sequential model): append to the live list unless already present. -/
def Director.AddAvailableBackend (d : Director) (backend : String) : Director :=
  if includesString d.availableBackends backend then d
  else { d with availableBackends := d.availableBackends ++ [backend] }

/-- `Director.RemoveAvailableBackend`: splice the backend out of the
live list (no-op when absent). -/
def Director.RemoveAvailableBackend (d : Director) (backend : String) : Director :=
  match findStringIndex d.availableBackends backend with
  | none => d
  | some i =>
    { d with availableBackends :=
        d.availableBackends.take i ++ d.availableBackends.drop (i + 1) }

/-- `Director.AddHost`: append the host unless present, then refresh
the priority. -/
def Director.AddHost (d : Director) (host : String) : Director :=
  if includesString d.Hosts host then d
  else ({ d with Hosts := d.Hosts ++ [host] }).RefreshPriority

/-- `Director.RemoveHost`: splice the host out when found, then refresh
the priority; no-op (and no refresh) when absent. -/
def Director.RemoveHost (d : Director) (host : String) : Director :=
  match findStringIndex d.Hosts host with
  | none => d
  | some i =>
    ({ d with Hosts := d.Hosts.take i ++ d.Hosts.drop (i + 1) }).RefreshPriority

/-- `Director.AddPrefix`: append the url prefix unless present, then
refresh the priority. -/
def Director.AddPrefix (d : Director) (pre : String) : Director :=
  if includesString d.Prefixs pre then d
  else ({ d with Prefixs := d.Prefixs ++ [pre] }).RefreshPriority

/-- `Director.RemovePrefix`: splice the url prefix out when found, then
refresh the priority; no-op when absent. -/
def Director.RemovePrefix (d : Director) (pre : String) : Director :=
  match findStringIndex d.Prefixs pre with
  | none => d
  | some i =>
    ({ d with Prefixs := d.Prefixs.take i ++ d.Prefixs.drop (i + 1) }).RefreshPriority

/-- `Director.Match` of `src/unnamed/part_001`, parameterized by the
regular-expression search `rm pattern host` standing for
`regexp.MustCompile(pattern).Match([]byte(host))`.  Both lists empty:
every request matches.  Hosts configured: the host must match one
pattern or the function returns false at once.  Prefixes configured:
the match flag is recomputed as the prefix disjunction. -/
def Director.Match (rm : String → String → Bool) (d : Director)
    (host uri : String) : Bool :=
  let hosts := d.Hosts
  let pfxs := d.Prefixs
  if hosts.length == 0 && pfxs.length == 0 then true
  else
    let hostMatched := hosts.any (fun item => rm item host)
    if hosts.length != 0 && !hostMatched then false
    else if pfxs.length != 0 then pfxs.any (fun item => goHasPrefix uri item)
    else hostMatched

/-- The per-attempt success test of `doCheck`: a transport error
(`none`) fails, otherwise the status code must lie in [200, 400). -/
def statusSuccess (r : Option Nat) : Bool :=
  match r with
  | none => false
  | some statusCode => decide (200 ≤ statusCode) && decide (statusCode < 400)

/-- `doCheck` of `src/unnamed/part_001`: issue the probe attempts
`probe 0 .. probe 4` (five sequential GETs in the Go code, reported
through a channel), count the successes, healthy iff at least 3. -/
def doCheck (probe : Nat → Option Nat) : Bool :=
  let results := (List.range 5).map probe
  let successCount := (results.map (fun r => if statusSuccess r then 1 else 0)).sum
  decide (3 ≤ successCount)

/-- `Director.HealthCheck`, sequentialized: every configured backend is
probed (the oracle `healthy b` stands for `doCheck(b + d.Ping)`); a
healthy backend is added to the live list, an unhealthy one removed.
The Go code runs the probes in goroutines whose add/remove calls are
serialized by the mutex; the fold realizes one such serialization. -/
def Director.HealthCheck (healthy : String → Bool) (d : Director) : Director :=
  d.Backends.foldl
    (fun acc backend =>
      if healthy backend then acc.AddAvailableBackend backend
      else acc.RemoveAvailableBackend backend)
    d

/-- The invariant of the spec: the live list is contained in the
configured backend list. -/
def liveSubset (d : Director) : Prop :=
  ∀ a ∈ d.availableBackends, a ∈ d.Backends

instance (d : Director) : Decidable (liveSubset d) :=
  inferInstanceAs (Decidable (∀ a ∈ d.availableBackends, a ∈ d.Backends))

/-- The priority value as a pure function of the rule lists. -/
def priorityOf (hosts pfxs : List String) : Int :=
  8 - (if hosts.length != 0 then 4 else 0) - (if pfxs.length != 0 then 2 else 0)

/-- A director whose stored priority agrees with `priorityOf`. -/
def priorityFresh (d : Director) : Prop :=
  d.Priority = priorityOf d.Hosts d.Prefixs

instance (d : Director) : Decidable (priorityFresh d) :=
  inferInstanceAs (Decidable (_ = _))

/-- Add a list of hosts in order through `Director.AddHost`. -/
def addHosts (hs : List String) (d : Director) : Director :=
  hs.foldl (fun acc h => acc.AddHost h) d

/-- Remove a list of hosts in order through `Director.RemoveHost`. -/
def removeHosts (hs : List String) (d : Director) : Director :=
  hs.foldl (fun acc h => acc.RemoveHost h) d

/-! Embedding of `src/upstream/upstream.go`. -/

/-- The `backupTag` constant. -/
def backupTag : String := "|backup"

/-- The `headerHashPrefix` constant `"header:"`. -/
def headerHashPre : String := "header:"

/-- The `cookieHashPrefix` constant `"cookie:"`. -/
def cookieHashPre : String := "cookie:"

/-- Model of `strings.Contains` at the character level: does `pat`
occur as a contiguous run inside `s`? -/
def hasSub : List Char → List Char → Bool
  | s@(_ :: rest), pat => pat.isPrefixOf s || hasSub rest pat
  | [], pat => pat.isEmpty

/-- Model of `strings.Replace(s, pat, "", 1)` for a nonempty `pat`:
delete the first occurrence of `pat` from `s`. -/
def removeFirstSub : List Char → List Char → List Char
  | s@(c :: rest), pat =>
    if pat.isPrefixOf s then s.drop pat.length
    else c :: removeFirstSub rest pat
  | [], _ => []

/-- Whitespace test of `strings.TrimSpace`, restricted to the ASCII
whitespace occurring in configuration files. -/
def isSpaceChar (c : Char) : Bool :=
  c == ' ' || c == '\t' || c == '\n' || c == '\r'

/-- Model of `strings.TrimSpace` for ASCII whitespace. -/
def trimSpace (s : List Char) : List Char :=
  ((s.dropWhile isSpaceChar).reverse.dropWhile isSpaceChar).reverse

/-- The `Backend` configuration struct of `src/upstream/upstream.go`. -/
structure Backend where
  Name : String
  Policy : String
  Ping : String
  RequestHeader : List String
  Header : List String
  Prefixs : List String
  Hosts : List String
  Backends : List String
  Rewrites : List String
deriving DecidableEq

/-- The `Upstream` struct.  The `server up.HTTP` field is represented
by the list of `Add`/`AddBackup` calls made on it: `(address, backup)`
pairs after tag stripping and trimming.  The two `http.Header` fields
(filled by the external `util.ConvertToHTTPHeader`) are outside the
model and outside every claim. -/
structure Upstream where
  Policy : String
  Priority : Int
  Name : String
  Hosts : List String
  Prefixs : List String
  Rewrites : List String
  servers : List (String × Bool)
deriving DecidableEq

/-- The per-item backend processing of `createUpstreamFromBackend`:
detect and strip the `|backup` tag, trim whitespace, and record whether
the address goes to `Add` (false) or `AddBackup` (true). -/
def processBackendItem (item : String) : String × Bool :=
  let cs := item.data
  let backup := hasSub cs backupTag.data
  let cs1 := if backup then removeFirstSub cs backupTag.data else cs
  let cs2 := trimSpace cs1
  (String.mk cs2, backup)

/-- `createUpstreamFromBackend`: compute the priority (8, minus 4 when
hosts are configured, minus 2 when prefixes are), process the backend
addresses, copy the rule lists, and default an empty policy string to
`roundRobin`. -/
def createUpstreamFromBackend (backend : Backend) : Upstream :=
  let p0 : Int := 8
  let p1 := if backend.Hosts.length != 0 then p0 - 4 else p0
  let p2 := if backend.Prefixs.length != 0 then p1 - 2 else p1
  let servers := backend.Backends.map processBackendItem
  let policy := if backend.Policy == "" then "roundRobin" else backend.Policy
  { Policy := policy
    Priority := p2
    Name := backend.Name
    Hosts := backend.Hosts
    Prefixs := backend.Prefixs
    Rewrites := backend.Rewrites
    servers := servers }

/-- `Upstream.Match`: the host must equal one configured host (plain
string comparison `currentHost == host` in the Go code), the request
uri must start with one configured prefix; a missing rule list imposes
no condition. -/
def Upstream.Match (us : Upstream) (host uri : String) : Bool :=
  let hosts := us.Hosts
  if hosts.length != 0 && !(hosts.any (fun item => host == item)) then false
  else
    let pfxs := us.Prefixs
    if pfxs.length != 0 && !(pfxs.any (fun item => goHasPrefix uri item)) then false
    else true

/-- The request context capabilities used by `createProxyHandler`:
`c.GetRequestHeader key` (empty string when the header is absent,
modelled by the `Option`) and `c.Cookie key` (`nil` when absent). -/
structure CodCtx where
  realIP : String
  headers : String → Option String
  cookies : String → Option String

/-- `c.GetRequestHeader`: `http.Header.Get` returns the empty string
for an absent header. -/
def getRequestHeader (c : CodCtx) (key : String) : String :=
  (c.headers key).getD ""

/-- Model of `s[n:]` for the key extraction `policy[len(prefix):]`. -/
def goDropChars (s : String) (n : Nat) : String :=
  String.mk (s.data.drop n)

/-- The index computation of the `default` branch of the policy switch
in `createProxyHandler`: `var index uint32` starts at 0; a `header:`
policy hashes the named request header (absent header = empty string);
a `cookie:` policy hashes the cookie value only when the cookie is
present; any other unregistered policy leaves the index at 0. -/
def defaultPolicyIndex (policy : String) (c : CodCtx) : Nat :=
  let isHeaderPolicy := goHasPrefix policy headerHashPre
  let isCookiePolicy := !isHeaderPolicy && goHasPrefix policy cookieHashPre
  if isHeaderPolicy then
    let key := goDropChars policy headerHashPre.length
    fnvHash (getRequestHeader c key)
  else if isCookiePolicy then
    let key := goDropChars policy cookieHashPre.length
    match c.cookies key with
    | some v => fnvHash v
    | none => 0
  else 0

/-- Modelled from the spec: the `vicanso/upstream` library function
`GetAvailableUpstream` (not part of this repository) reduces the caller
index modulo the number of available upstreams and returns that one,
or nothing when none is available ("the caller reduces it modulo the
live-backend count"; "If empty, fail with no available backend"). -/
def getAvailableUpstream (live : List String) (index : Nat) : Option String :=
  if live.length = 0 then none
  else live.get? (index % live.length)

/-! Control-flow model of `Director.StartHealthCheck`
(`src/unnamed/part_001`, lines 296-311). -/

/-- The control states of the monitor loop: `running` is the ticker
loop, `recovering` is the deferred recover handler, `stopped` would be
a permanently terminated monitor.  No transition below produces
`stopped`: the ticker loop never exits normally (`for range ticker.C`
is endless) and the recover handler always restarts the loop. -/
inductive MonitorState where
  | running
  | recovering
  | stopped
deriving DecidableEq

/-- The transitions of `StartHealthCheck`, labelled by the pause in
seconds taken by the transition: a ticker tick runs `HealthCheck` and
stays in the loop; a panic inside the cycle transfers control to the
deferred `recover`; the recover handler sleeps one second
(`time.Sleep(time.Second)`) and calls `StartHealthCheck` again. -/
inductive MonitorStep : MonitorState → Nat → MonitorState → Prop
  | tick : MonitorStep .running 0 .running
  | fault : MonitorStep .running 0 .recovering
  | restart : MonitorStep .recovering 1 .running

/-- Reachability along any finite sequence of monitor transitions. -/
def MonitorReaches : MonitorState → MonitorState → Prop :=
  Relation.ReflTransGen (fun a b => ∃ p, MonitorStep a p b)

/-! Concrete instances used by the evaluation theorems. -/

/-- A concrete request context. -/
def ctx0 : Ctx := { realIP := "127.0.0.1", randVal := 0 }

/-- A director whose live list is empty (all probes currently failing)
while one backend is configured. -/
def dEmptyLive : Director :=
  { Name := "g", Policy := "first", Ping := "/ping", Backends := ["s1"],
    availableBackends := [], Hosts := [], Prefixs := [], Priority := 8, roubin := 0 }

/-- A director with one configured backend that is currently live. -/
def dOneLive : Director :=
  { Name := "g", Policy := "roundRobin", Ping := "/ping", Backends := ["s1"],
    availableBackends := ["s1"], Hosts := [], Prefixs := [], Priority := 8, roubin := 0 }

/-- A catch-all director with three configured, all-live backends and
the `roundRobin` policy with a fresh counter. -/
def dS3 : Director :=
  { Name := "g", Policy := "roundRobin", Ping := "/ping",
    Backends := ["s1", "s2", "s3"], availableBackends := ["s1", "s2", "s3"],
    Hosts := [], Prefixs := [], Priority := 8, roubin := 0 }

/-- A director carrying one host pattern, the literal regular
expression `example`. -/
def dHostPattern : Director :=
  { Name := "g", Policy := "roundRobin", Ping := "/ping", Backends := ["s1"],
    availableBackends := ["s1"], Hosts := ["example"], Prefixs := [],
    Priority := 4, roubin := 0 }

/-- An upstream carrying the same single host rule `example`. -/
def usHostPattern : Upstream :=
  { Policy := "roundRobin", Priority := 4, Name := "g", Hosts := ["example"],
    Prefixs := [], Rewrites := [], servers := [("http://s1", false)] }

/-- Go regular-expression search specialized to a metacharacter-free
pattern: such a pattern matches a string exactly when it occurs in it
as a substring (`regexp.Match` searches, it does not anchor). -/
def litSearch (pat s : String) : Bool :=
  hasSub s.data pat.data

/-- A request context whose header and cookie lookups all miss. -/
def cNone : CodCtx :=
  { realIP := "", headers := fun _ => none, cookies := fun _ => none }

/-- A backend configuration naming a selection policy that no registry
entry matches. -/
def bogusBackend : Backend :=
  { Name := "g", Policy := "bogus", Ping := "/ping", RequestHeader := [],
    Header := [], Prefixs := [], Hosts := [], Backends := ["http://s1"],
    Rewrites := [] }

/-- A director carrying the same unregistered policy with a live
backend. -/
def dBogus : Director :=
  { Name := "g", Policy := "bogus", Ping := "/ping", Backends := ["s1"],
    availableBackends := ["s1"], Hosts := [], Prefixs := [], Priority := 8,
    roubin := 0 }

/-! Helper lemmas shared by the claim theorems. -/

theorem includesString_iff (l : List String) (s : String) :
    includesString l s = true ↔ s ∈ l :=
  List.elem_iff

theorem sumIndicator (l : List (Option Nat)) :
    (l.map (fun r => if statusSuccess r then 1 else 0)).sum = l.countP statusSuccess := by
  induction l with
  | nil => rfl
  | cons a l ih =>
    simp only [List.map_cons, List.sum_cons, List.countP_cons, ih]
    cases h : statusSuccess a <;> simp [h, Nat.add_comm]

theorem findStringIndex_append_cons (b : List String) (h : String) (t : List String)
    (hb : h ∉ b) : findStringIndex (b ++ h :: t) h = some b.length := by
  induction b with
  | nil => simp [findStringIndex]
  | cons x xs ih =>
    have hx : ¬(x == h) = true := by
      simp only [beq_iff_eq]
      intro hEq
      exact hb (hEq ▸ List.mem_cons_self x xs)
    have hxs : h ∉ xs := fun hmem => hb (List.mem_cons_of_mem x hmem)
    simp [findStringIndex, hx, ih hxs]

theorem splice_append_cons (b : List String) (h : String) (t : List String) :
    (b ++ h :: t).take b.length ++ (b ++ h :: t).drop (b.length + 1) = b ++ t := by
  have h1 : (b ++ h :: t).take b.length = b := List.take_left b (h :: t)
  have h2 : (b ++ h :: t).drop (b.length + 1) = t := by
    have h3 : ((b ++ h :: t).drop b.length).drop 1 = (b ++ h :: t).drop (b.length + 1) :=
      List.drop_drop 1 b.length (b ++ h :: t)
    rw [← h3, List.drop_left b (h :: t)]
    rfl
  rw [h1, h2]

theorem splice_subset (l : List String) (i : Nat) :
    (l.take i ++ l.drop (i + 1)) ⊆ l := by
  intro a ha
  rcases List.mem_append.mp ha with h | h
  · exact List.take_subset i l h
  · exact List.drop_subset (i + 1) l h

/-- C6: the health probe of `doCheck` makes exactly 5 attempts, an
attempt succeeds exactly when its status code lies in [200, 400) (a
transport error fails), and the backend is judged healthy exactly when
at least 3 of the 5 attempts succeed. -/
theorem c6_health_majority :
    ∀ probe : Nat → Option Nat,
      (doCheck probe = true ↔ 3 ≤ ((List.range 5).map probe).countP statusSuccess)
      ∧ ((List.range 5).map probe).length = 5
      ∧ statusSuccess none = false
      ∧ (∀ statusCode : Nat,
          statusSuccess (some statusCode) = true ↔
            200 ≤ statusCode ∧ statusCode < 400) := by
  intro probe
  refine ⟨?_, by simp, rfl, ?_⟩
  · show decide (3 ≤ (((List.range 5).map probe).map
        (fun r => if statusSuccess r then 1 else 0)).sum) = true ↔ _
    rw [sumIndicator]
    simp
  · intro statusCode
    simp [statusSuccess]

/-- C10: `createUpstreamFromBackend` turns an empty configured policy
string into `roundRobin` and keeps every other policy string
unchanged. -/
theorem c10_default_policy :
    ∀ backend : Backend,
      (createUpstreamFromBackend backend).Policy =
        if backend.Policy = "" then "roundRobin" else backend.Policy := by
  intro backend
  unfold createUpstreamFromBackend
  by_cases h : backend.Policy = "" <;> simp [h]

/-- C1: evaluation of `Director.Select` at an empty live-backend list
for each registered policy.  The claim says selection fails with the
NoAvailableBackend error; the code instead evaluates
`availableBackends[index%count]` with `count = uint32(0)`, an integer
divide by zero, i.e. a runtime panic (`none` in the model) — there is
no empty-set check and no error return in `Director.Select` at all.
The last conjunct checks that the policy is registered, so the panic
branch, not the unknown-policy branch, is exercised. -/
theorem c1_empty_live_panics :
    (Director.Select ctx0 { dEmptyLive with Policy := "first" }).1 = none
    ∧ (Director.Select ctx0 { dEmptyLive with Policy := "random" }).1 = none
    ∧ (Director.Select ctx0 { dEmptyLive with Policy := "roundRobin" }).1 = none
    ∧ (Director.Select ctx0 { dEmptyLive with Policy := "ipHash" }).1 = none
    ∧ selectFuncMap "first" ≠ none := by
  refine ⟨rfl, rfl, rfl, rfl, ?_⟩
  intro h
  simp [selectFuncMap] at h

theorem addAvailableBackend_Backends (d : Director) (b : String) :
    (d.AddAvailableBackend b).Backends = d.Backends := by
  unfold Director.AddAvailableBackend
  split <;> rfl

theorem removeAvailableBackend_Backends (d : Director) (b : String) :
    (d.RemoveAvailableBackend b).Backends = d.Backends := by
  unfold Director.RemoveAvailableBackend
  split <;> rfl

theorem removeAvailableBackend_liveSubset (d : Director) (b : String)
    (hd : liveSubset d) : liveSubset (d.RemoveAvailableBackend b) := by
  unfold Director.RemoveAvailableBackend
  split
  · exact hd
  · intro a ha
    exact hd a (splice_subset d.availableBackends _ ha)

theorem addAvailableBackend_liveSubset (d : Director) (b : String)
    (hd : liveSubset d) (hb : b ∈ d.Backends) :
    liveSubset (d.AddAvailableBackend b) := by
  unfold Director.AddAvailableBackend
  split
  · exact hd
  · intro a ha
    rcases List.mem_append.mp ha with h | h
    · exact hd a h
    · rw [List.mem_singleton] at h
      subst h
      exact hb

theorem healthCheckFold_liveSubset (healthy : String → Bool) :
    ∀ (l : List String) (acc : Director),
      liveSubset acc → (∀ x ∈ l, x ∈ acc.Backends) →
      liveSubset (l.foldl (fun a backend =>
        if healthy backend then a.AddAvailableBackend backend
        else a.RemoveAvailableBackend backend) acc) := by
  intro l
  induction l with
  | nil => intro acc h _; simpa using h
  | cons x xs ih =>
    intro acc hacc hmem
    simp only [List.foldl_cons]
    have hB : (if healthy x then acc.AddAvailableBackend x
        else acc.RemoveAvailableBackend x).Backends = acc.Backends := by
      split
      · exact addAvailableBackend_Backends acc x
      · exact removeAvailableBackend_Backends acc x
    have hlive : liveSubset (if healthy x then acc.AddAvailableBackend x
        else acc.RemoveAvailableBackend x) := by
      split
      · exact addAvailableBackend_liveSubset acc x hacc (hmem x (List.mem_cons_self x xs))
      · exact removeAvailableBackend_liveSubset acc x hacc
    exact ih _ hlive (fun y hy => hB ▸ hmem y (List.mem_cons_of_mem x hy))

/-- C2 (amended): the invariant `liveBackends ⊆ backends` is preserved
by `RemoveAvailableBackend`, by `AddAvailableBackend` whenever the
added backend is configured (which is the case for every call the
health checker makes), and by a full `HealthCheck` cycle for any
pattern of probe outcomes.  The administrative `RemoveBackend` is
missing from this list: it does not delete the removed backend from
the live list, and `c2_remove_backend_breaks_invariant` shows it
breaking the invariant. -/
theorem c2_live_subset_preservation :
    ∀ (d : Director) (b : String) (healthy : String → Bool),
      liveSubset d →
      liveSubset (d.RemoveAvailableBackend b)
      ∧ (b ∈ d.Backends → liveSubset (d.AddAvailableBackend b))
      ∧ liveSubset (d.HealthCheck healthy) := by
  intro d b healthy hd
  refine ⟨removeAvailableBackend_liveSubset d b hd,
    fun hb => addAvailableBackend_liveSubset d b hd hb, ?_⟩
  exact healthCheckFold_liveSubset healthy d.Backends d hd (fun x hx => hx)

/-- C2, refuting part: `Director.RemoveBackend` does not preserve the
invariant.  On a director with `Backends = [s1]` and live list `[s1]`,
removing `s1` empties `Backends` but leaves the live list untouched,
so the live list is no longer contained in the backend list. -/
theorem c2_remove_backend_breaks_invariant :
    liveSubset dOneLive ∧ ¬ liveSubset (dOneLive.RemoveBackend "s1") := by
  decide

/-- Witness for `c2_live_subset_preservation` at a concrete input. -/
theorem c2_live_subset_preservation_witness :
    liveSubset (dOneLive.RemoveAvailableBackend "s1")
    ∧ liveSubset (dOneLive.AddAvailableBackend "s1")
    ∧ liveSubset (dOneLive.HealthCheck (fun _ => true)) := by
  have h := c2_live_subset_preservation dOneLive "s1" (fun _ => true) (by decide)
  exact ⟨h.1, h.2.1 (by decide), h.2.2⟩

/-- C3 (amended): both matchers are the conjunction of an OR over the
host rules and an OR over the path prefixes, each vacuously true when
its rule list is empty (so a group with no rules matches every
request).  `Director.Match` tests a host rule by regular-expression
search (`rm`), while `Upstream.Match` tests it by plain string
equality with the request host — not by regular-expression search as
the claim states for both. -/
theorem c3_match_characterization :
    ∀ (rm : String → String → Bool) (d : Director) (us : Upstream) (host uri : String),
      Director.Match rm d host uri =
        ((d.Hosts.isEmpty || d.Hosts.any (fun item => rm item host))
          && (d.Prefixs.isEmpty || d.Prefixs.any (fun item => goHasPrefix uri item)))
      ∧ Upstream.Match us host uri =
        ((us.Hosts.isEmpty || us.Hosts.any (fun item => host == item))
          && (us.Prefixs.isEmpty || us.Prefixs.any (fun item => goHasPrefix uri item))) := by
  intro rm d us host uri
  constructor
  · show (if d.Hosts.length == 0 && d.Prefixs.length == 0 then true
        else if d.Hosts.length != 0 && !(d.Hosts.any fun item => rm item host) then false
        else if d.Prefixs.length != 0 then d.Prefixs.any fun item => goHasPrefix uri item
        else d.Hosts.any fun item => rm item host) = _
    cases hH : d.Hosts with
    | nil =>
      cases hP : d.Prefixs with
      | nil => rfl
      | cons p ps => rfl
    | cons a l =>
      cases hm : (a :: l).any (fun item => rm item host) with
      | false => rfl
      | true => cases hP : d.Prefixs <;> rfl
  · show (if us.Hosts.length != 0 && !(us.Hosts.any fun item => host == item) then false
        else if us.Prefixs.length != 0 && !(us.Prefixs.any fun item => goHasPrefix uri item) then false
        else true) = _
    cases hH : us.Hosts with
    | nil =>
      cases hP : us.Prefixs with
      | nil => rfl
      | cons p ps => cases hp2 : (p :: ps).any (fun item => goHasPrefix uri item) <;> rfl
    | cons a l =>
      cases hm : (a :: l).any (fun item => host == item) with
      | false => rfl
      | true =>
        cases hP : us.Prefixs with
        | nil => rfl
        | cons p ps => cases hp2 : (p :: ps).any (fun item => goHasPrefix uri item) <;> rfl

/-- C3, refuting part: the claim says a configured host rule is tested
by regular-expression search in `Match`.  The pattern `example` is a
regular expression free of metacharacters, so Go regexp search accepts
every host containing it as a substring: `Director.Match` accepts the
host `api.example.com`.  `Upstream.Match` with the same single rule
rejects the same host, because it compares the request host for
equality with the rule instead of searching. -/
theorem c3_upstream_host_equality_counterexample :
    litSearch "example" "api.example.com" = true
    ∧ Director.Match litSearch dHostPattern "api.example.com" "/" = true
    ∧ Upstream.Match usHostPattern "api.example.com" "/" = false := by
  decide

theorem refreshPriority_Priority (d : Director) :
    (d.RefreshPriority).Priority = priorityOf d.Hosts d.Prefixs := by
  simp only [Director.RefreshPriority, priorityOf]
  cases hH : d.Hosts.length != 0 <;> cases hP : d.Prefixs.length != 0 <;> simp [hH, hP]

theorem refreshPriority_fresh (d : Director) : priorityFresh (d.RefreshPriority) := by
  show (d.RefreshPriority).Priority = priorityOf (d.RefreshPriority).Hosts (d.RefreshPriority).Prefixs
  rw [refreshPriority_Priority]
  rfl

theorem addHost_priorityFresh (d : Director) (h : String) (hd : priorityFresh d) :
    priorityFresh (d.AddHost h) := by
  unfold Director.AddHost
  split
  · exact hd
  · exact refreshPriority_fresh _

theorem removeHost_priorityFresh (d : Director) (h : String) (hd : priorityFresh d) :
    priorityFresh (d.RemoveHost h) := by
  unfold Director.RemoveHost
  split
  · exact hd
  · exact refreshPriority_fresh _

theorem addPrefix_priorityFresh (d : Director) (p : String) (hd : priorityFresh d) :
    priorityFresh (d.AddPrefix p) := by
  unfold Director.AddPrefix
  split
  · exact hd
  · exact refreshPriority_fresh _

theorem removePrefix_priorityFresh (d : Director) (p : String) (hd : priorityFresh d) :
    priorityFresh (d.RemovePrefix p) := by
  unfold Director.RemovePrefix
  split
  · exact hd
  · exact refreshPriority_fresh _

theorem addHost_hosts_of_fresh (d : Director) (h : String) (hh : h ∉ d.Hosts) :
    (d.AddHost h).Hosts = d.Hosts ++ [h] ∧ (d.AddHost h).Prefixs = d.Prefixs := by
  have hc : ¬ (includesString d.Hosts h = true) :=
    fun hc => hh ((includesString_iff _ _).mp hc)
  unfold Director.AddHost
  rw [if_neg hc]
  exact ⟨rfl, rfl⟩

theorem addHosts_hosts (hs : List String) :
    ∀ d : Director, hs.Nodup → (∀ h ∈ hs, h ∉ d.Hosts) →
      (addHosts hs d).Hosts = d.Hosts ++ hs ∧ (addHosts hs d).Prefixs = d.Prefixs := by
  induction hs with
  | nil => intro d _ _; exact ⟨(List.append_nil d.Hosts).symm, rfl⟩
  | cons h t ih =>
    intro d hnd hfresh
    have hh : h ∉ d.Hosts := hfresh h (List.mem_cons_self h t)
    obtain ⟨e1, e2⟩ := addHost_hosts_of_fresh d h hh
    have hne : h ∉ t := (List.nodup_cons.mp hnd).1
    have hfresh2 : ∀ x ∈ t, x ∉ (d.AddHost h).Hosts := by
      intro x hx
      rw [e1]
      intro hmem
      rcases List.mem_append.mp hmem with hm | hm
      · exact hfresh x (List.mem_cons_of_mem h hx) hm
      · rw [List.mem_singleton] at hm
        subst hm
        exact hne hx
    obtain ⟨r1, r2⟩ := ih (d.AddHost h) (List.nodup_cons.mp hnd).2 hfresh2
    constructor
    · show (addHosts t (d.AddHost h)).Hosts = _
      rw [r1, e1, List.append_assoc]
      rfl
    · show (addHosts t (d.AddHost h)).Prefixs = _
      rw [r2, e2]

theorem removeHost_of_fresh_head (b : List String) (h : String) (t : List String)
    (hb : h ∉ b) (d : Director) (hd : d.Hosts = b ++ h :: t) :
    (d.RemoveHost h).Hosts = b ++ t ∧ (d.RemoveHost h).Prefixs = d.Prefixs
    ∧ (d.RemoveHost h).Priority = priorityOf (b ++ t) d.Prefixs := by
  have hsplice := splice_append_cons b h t
  unfold Director.RemoveHost
  rw [hd, findStringIndex_append_cons b h t hb]
  refine ⟨?_, rfl, ?_⟩
  · show ((b ++ h :: t).take b.length ++ (b ++ h :: t).drop (b.length + 1)) = b ++ t
    exact hsplice
  · rw [refreshPriority_Priority]
    show priorityOf ((b ++ h :: t).take b.length ++ (b ++ h :: t).drop (b.length + 1))
        d.Prefixs = _
    rw [hsplice]

theorem removeHosts_restore (hs : List String) :
    ∀ (d : Director) (base : List String), hs.Nodup → (∀ h ∈ hs, h ∉ base) →
      d.Hosts = base ++ hs →
      (removeHosts hs d).Hosts = base
      ∧ (removeHosts hs d).Prefixs = d.Prefixs
      ∧ (removeHosts hs d).Priority =
          (if hs.isEmpty then d.Priority else priorityOf base d.Prefixs) := by
  induction hs with
  | nil =>
    intro d base _ _ hd
    refine ⟨?_, rfl, rfl⟩
    show d.Hosts = base
    rw [hd, List.append_nil]
  | cons h t ih =>
    intro d base hnd hfresh hd
    have hb : h ∉ base := hfresh h (List.mem_cons_self h t)
    obtain ⟨e1, e2, e3⟩ := removeHost_of_fresh_head base h t hb d hd
    have hfresh2 : ∀ x ∈ t, x ∉ base := fun x hx => hfresh x (List.mem_cons_of_mem h hx)
    obtain ⟨r1, r2, r3⟩ := ih (d.RemoveHost h) base (List.nodup_cons.mp hnd).2 hfresh2 e1
    refine ⟨r1, r2.trans e2, ?_⟩
    show (removeHosts t (d.RemoveHost h)).Priority = _
    rw [r3]
    cases t <;> simp [e3, e2]

/-- C5: the priority of a group is the pure function
`8 − (4 if any host rule) − (2 if any prefix rule)` of its rule lists
(`refreshPriority_Priority` conjunct), the agreement of the stored
priority with that function is preserved by each of `AddHost`,
`RemoveHost`, `AddPrefix` and `RemovePrefix` (each refreshes the
priority exactly when it mutates a rule list), and adding any fresh
set of hosts and then removing them again restores the original host
list and the original priority. -/
theorem c5_priority :
    ∀ (d : Director) (h p : String) (hs : List String),
      (d.RefreshPriority).Priority = priorityOf d.Hosts d.Prefixs
      ∧ (priorityFresh d →
          priorityFresh (d.AddHost h) ∧ priorityFresh (d.RemoveHost h)
          ∧ priorityFresh (d.AddPrefix p) ∧ priorityFresh (d.RemovePrefix p))
      ∧ (hs.Nodup → (∀ x ∈ hs, x ∉ d.Hosts) → priorityFresh d →
          (removeHosts hs (addHosts hs d)).Hosts = d.Hosts
          ∧ (removeHosts hs (addHosts hs d)).Priority = d.Priority) := by
  intro d h p hs
  refine ⟨refreshPriority_Priority d, ?_, ?_⟩
  · intro hd
    exact ⟨addHost_priorityFresh d h hd, removeHost_priorityFresh d h hd,
      addPrefix_priorityFresh d p hd, removePrefix_priorityFresh d p hd⟩
  · intro hnd hfresh hpf
    obtain ⟨a1, a2⟩ := addHosts_hosts hs d hnd hfresh
    obtain ⟨r1, r2, r3⟩ := removeHosts_restore hs (addHosts hs d) d.Hosts hnd hfresh a1
    refine ⟨r1, ?_⟩
    rw [r3]
    cases hs with
    | nil => rfl
    | cons h1 t1 =>
      simp [a2]
      exact hpf.symm

/-- Witness for `c5_priority` at a concrete input: a group with no
rules and fresh priority 8; two fresh hosts added and removed again. -/
theorem c5_priority_witness :
    (removeHosts ["h1", "h2"] (addHosts ["h1", "h2"] dEmptyLive)).Hosts = dEmptyLive.Hosts
    ∧ (removeHosts ["h1", "h2"] (addHosts ["h1", "h2"] dEmptyLive)).Priority = dEmptyLive.Priority
    ∧ priorityFresh (dEmptyLive.AddHost "h1") := by
  have h := c5_priority dEmptyLive "h1" "/p" ["h1", "h2"]
  exact ⟨(h.2.2 (by decide) (by decide) (by decide)).1,
    (h.2.2 (by decide) (by decide) (by decide)).2,
    (h.2.1 (by decide)).1⟩

theorem selectFuncMap_roundRobin :
    selectFuncMap "roundRobin" = some (fun _ d =>
      let r := (d.roubin + 1) % 4294967296
      (r, { d with roubin := r })) := rfl

theorem select_roundRobin (c : Ctx) (d : Director) (r : Nat)
    (hp : d.Policy = "roundRobin") (hr : d.roubin = r)
    (hpos : 0 < d.availableBackends.length)
    (hlt : d.availableBackends.length < 4294967296)
    (hrb : r + 1 < 4294967296) :
    Director.Select c d =
      (d.availableBackends.get? ((r + 1) % d.availableBackends.length),
       { d with roubin := r + 1 }) := by
  have hmodl : d.availableBackends.length % 4294967296 = d.availableBackends.length :=
    Nat.mod_eq_of_lt hlt
  have hmodr : (r + 1) % 4294967296 = r + 1 := Nat.mod_eq_of_lt hrb
  simp only [Director.Select, hp, selectFuncMap_roundRobin, hr, hmodl, hmodr]
  rw [if_neg (Nat.pos_iff_ne_zero.mp hpos)]

theorem selectN_roundRobin (c : Ctx) :
    ∀ (n : Nat) (d : Director) (r : Nat),
      d.Policy = "roundRobin" → d.roubin = r →
      0 < d.availableBackends.length → d.availableBackends.length < 4294967296 →
      r + n < 4294967296 →
      selectN c n d =
        ((List.range n).map
          (fun j => d.availableBackends.get? ((r + j + 1) % d.availableBackends.length)),
         { d with roubin := r + n }) := by
  intro n
  induction n with
  | zero =>
    intro d r hp hr hpos hlt hb
    subst hr
    rfl
  | succ n ih =>
    intro d r hp hr hpos hlt hb
    have h1 : r + 1 < 4294967296 := by omega
    have hstep : selectN c (n + 1) d =
        ((Director.Select c d).1 :: (selectN c n (Director.Select c d).2).1,
         (selectN c n (Director.Select c d).2).2) := rfl
    rw [hstep, select_roundRobin c d r hp hr hpos hlt h1]
    rw [ih { d with roubin := r + 1 } (r + 1) hp rfl hpos hlt (by omega)]
    refine Prod.ext ?_ ?_
    · show d.availableBackends.get? ((r + 1) % d.availableBackends.length) ::
        (List.range n).map
          (fun j => d.availableBackends.get? ((r + 1 + j + 1) % d.availableBackends.length)) = _
      rw [List.range_succ_eq_map, List.map_cons, List.map_map]
      congr 1
      apply List.map_congr_left
      intro j hj
      show d.availableBackends.get? ((r + 1 + j + 1) % d.availableBackends.length) =
        d.availableBackends.get? ((r + (j + 1) + 1) % d.availableBackends.length)
      congr 2
      omega
    · show ({ d with roubin := r + 1 + n } : Director) = { d with roubin := r + (n + 1) }
      congr 1
      omega

/-- C4: round-robin selection from a fresh counter.  With `N` live
backends (`N` at most the window in which the uint32 counter does not
wrap: `2N < 2^32`), the `N` consecutive selections return the entries
at indices `1 % N, 2 % N, ..., N % N` — each index exactly once, in
the cyclically increasing pattern `(j+1) mod N` — and `2N` selections
repeat that cycle twice.  On the concrete group with live backends
`[s1, s2, s3]` the first three selections return `s2, s3, s1`: the
first increment of the counter yields index 1. -/
theorem c4_round_robin :
    ∀ (c : Ctx) (d : Director) (N : Nat),
      d.Policy = "roundRobin" → d.roubin = 0 →
      d.availableBackends.length = N → 0 < N → 2 * N < 4294967296 →
      (selectList c d N =
        (List.range N).map (fun j => d.availableBackends.get? ((j + 1) % N)))
      ∧ selectList c d (2 * N) = selectList c d N ++ selectList c d N
      ∧ ((List.range N).map (fun j => (j + 1) % N)).Perm (List.range N)
      ∧ selectList c dS3 3 = [some "s2", some "s3", some "s1"] := by
  intro c d N hp hr hlen hpos hbound
  have hN : 0 < d.availableBackends.length := by omega
  have hlt : d.availableBackends.length < 4294967296 := by omega
  have hmap1 : (selectN c N d).1 =
      (List.range N).map
        (fun j => d.availableBackends.get? ((0 + j + 1) % d.availableBackends.length)) := by
    rw [selectN_roundRobin c N d 0 hp hr hN hlt (by omega)]
  refine ⟨?_, ?_, ?_, ?_⟩
  · show (selectN c N d).1 = _
    rw [hmap1]
    apply List.map_congr_left
    intro j hj
    rw [hlen]
    have heq : 0 + j + 1 = j + 1 := by omega
    rw [heq]
  · have hmap2 : (selectN c (2 * N) d).1 =
        (List.range (2 * N)).map
          (fun j => d.availableBackends.get? ((0 + j + 1) % d.availableBackends.length)) := by
      rw [selectN_roundRobin c (2 * N) d 0 hp hr hN hlt (by omega)]
    show (selectN c (2 * N) d).1 = (selectN c N d).1 ++ (selectN c N d).1
    have h2 : 2 * N = N + N := by omega
    rw [hmap2, hmap1, h2, List.range_add, List.map_append, List.map_map]
    congr 1
    apply List.map_congr_left
    intro j hj
    show d.availableBackends.get? ((0 + (N + j) + 1) % d.availableBackends.length) = _
    have heq : (0 + (N + j) + 1) % d.availableBackends.length =
        (0 + j + 1) % d.availableBackends.length := by
      rw [show 0 + (N + j) + 1 = d.availableBackends.length + (0 + j + 1) from by omega,
        Nat.add_mod_left]
    rw [heq]
  · obtain ⟨M, rfl⟩ : ∃ M, N = M + 1 := ⟨N - 1, by omega⟩
    have h1 : (List.range M).map (fun j => (j + 1) % (M + 1)) =
        (List.range M).map (fun j => j + 1) :=
      List.map_congr_left (fun j hj =>
        Nat.mod_eq_of_lt (by have := List.mem_range.mp hj; omega))
    have h2 : [M].map (fun j => (j + 1) % (M + 1)) = [0] := by
      simp [Nat.mod_self]
    have hsplit : (List.range (M + 1)).map (fun j => (j + 1) % (M + 1)) =
        (List.range M).map (fun j => j + 1) ++ [0] := by
      rw [List.range_succ, List.map_append, h1, h2]
    have h3 : 0 :: (List.range M).map (fun j => j + 1) = List.range (M + 1) := by
      rw [List.range_succ_eq_map]
    rw [hsplit, ← h3]
    exact List.perm_append_comm
  · show (selectN c 3 dS3).1 = _
    rw [selectN_roundRobin c 3 dS3 0 rfl rfl (by decide) (by decide) (by decide)]
    decide

/-- Witness for `c4_round_robin` at a concrete input: the three-backend
scenario of the claim. -/
theorem c4_round_robin_witness :
    selectList ctx0 dS3 3 = [some "s2", some "s3", some "s1"] :=
  (c4_round_robin ctx0 dS3 3 rfl rfl rfl (by decide) (by decide)).2.2.2

/-- C7 (amended): in the header/cookie branch of `createProxyHandler`,
an absent cookie leaves the index at its zero initialization, but an
absent header does not: `GetRequestHeader` returns the empty string
for it, which is then hashed, and the FNV-1a hash of the empty string
is the offset basis 2166136261, not 0. -/
theorem goHasPrefix_append (pre rest : String) : goHasPrefix (pre ++ rest) pre = true := by
  unfold goHasPrefix
  rw [String.data_append]
  exact List.isPrefixOf_iff_prefix.mpr (List.prefix_append _ _)

theorem c7_absent_values :
    ∀ (c : CodCtx) (key : String),
      (c.cookies key = none → defaultPolicyIndex (cookieHashPre ++ key) c = 0)
      ∧ (c.headers key = none →
          defaultPolicyIndex (headerHashPre ++ key) c = fnvHash "")
      ∧ fnvHash "" = 2166136261 := by
  intro c key
  refine ⟨?_, ?_, rfl⟩
  · intro hck
    have hkey : goDropChars (cookieHashPre ++ key) cookieHashPre.length = key := rfl
    unfold defaultPolicyIndex
    rw [show goHasPrefix (cookieHashPre ++ key) headerHashPre = false from rfl,
      goHasPrefix_append cookieHashPre key, hkey]
    show (match c.cookies key with
          | some v => fnvHash v
          | none => 0) = 0
    rw [hck]
  · intro hhk
    have hkey : goDropChars (headerHashPre ++ key) headerHashPre.length = key := rfl
    unfold defaultPolicyIndex
    rw [goHasPrefix_append headerHashPre key, hkey]
    show fnvHash (getRequestHeader c key) = fnvHash ""
    unfold getRequestHeader
    rw [hhk]
    rfl

/-- C7, refuting part: with every header lookup missing, the
`header:X-Forwarded-User` policy computes index 2166136261 (the FNV-1a
hash of the empty string), which is not 0, and over three live
backends it selects the second one, not the first; the cookie policy
with an absent cookie does fall back to index 0. -/
theorem c7_absent_header_not_zero :
    defaultPolicyIndex "header:X-Forwarded-User" cNone = 2166136261
    ∧ (2166136261 : Nat) ≠ 0
    ∧ getAvailableUpstream ["s1", "s2", "s3"]
        (defaultPolicyIndex "header:X-Forwarded-User" cNone) = some "s2"
    ∧ defaultPolicyIndex "cookie:sid" cNone = 0 := by
  refine ⟨rfl, by decide, by decide, rfl⟩

/-- Witness for `c7_absent_values` at a concrete input. -/
theorem c7_absent_values_witness :
    defaultPolicyIndex (cookieHashPre ++ "sid") cNone = 0
    ∧ defaultPolicyIndex (headerHashPre ++ "X-Id") cNone = fnvHash "" :=
  ⟨(c7_absent_values cNone "sid").1 rfl,
   (c7_absent_values cNone "X-Id").2.1 rfl⟩

/-- C8 (amended): nothing validates the selection policy at group
construction time.  `createUpstreamFromBackend` stores any nonempty
policy string verbatim (construction is total, there is no error
path), and at request time `Director.Select` with an unregistered
policy silently returns the empty string instead of a selection. -/
theorem c8_unknown_policy :
    ∀ (b : Backend) (c : Ctx) (d : Director),
      ((createUpstreamFromBackend b).Policy =
        if b.Policy = "" then "roundRobin" else b.Policy)
      ∧ (selectFuncMap d.Policy = none → (Director.Select c d).1 = some "") := by
  intro b c d
  constructor
  · unfold createUpstreamFromBackend
    by_cases h : b.Policy = "" <;> simp [h]
  · intro hnone
    unfold Director.Select
    rw [hnone]

/-- C8, refuting part: building a group from a configuration with the
unregistered policy `bogus` succeeds and stores the policy unchanged —
no configuration-time failure — while `Select` on such a group at
request time silently yields the empty string, not a fatal
configuration error. -/
theorem c8_no_fail_fast :
    (createUpstreamFromBackend bogusBackend).Policy = "bogus"
    ∧ selectFuncMap "bogus" = none
    ∧ (Director.Select ctx0 dBogus).1 = some "" :=
  ⟨rfl, rfl, rfl⟩

/-- Witness for `c8_unknown_policy` at a concrete input. -/
theorem c8_unknown_policy_witness :
    (Director.Select ctx0 dBogus).1 = some "" :=
  (c8_unknown_policy bogusBackend ctx0 dBogus).2 rfl

/-- C9: in the control-flow model of `StartHealthCheck`, every state
reachable from the running monitor loop is `running` or `recovering`,
never `stopped`: a fault inside a check cycle moves to the recover
handler, whose only transition sleeps 1 second and restarts the loop,
so health monitoring never permanently terminates on an internal
fault. -/
theorem c9_monitor_never_stops :
    ∀ s : MonitorState, MonitorReaches .running s →
      s ≠ .stopped
      ∧ (s = .recovering → MonitorStep s 1 .running)
      ∧ (∀ (p : Nat) (t : MonitorState), MonitorStep .recovering p t →
          p = 1 ∧ t = .running) := by
  intro s hs
  have hinv : ∀ t : MonitorState, MonitorReaches .running t →
      t = .running ∨ t = .recovering := by
    intro t ht
    induction ht with
    | refl => exact Or.inl rfl
    | tail h1 h2 ih =>
      obtain ⟨p, hstep⟩ := h2
      cases hstep with
      | tick => exact Or.inl rfl
      | fault => exact Or.inr rfl
      | restart => exact Or.inl rfl
  refine ⟨?_, ?_, ?_⟩
  · rcases hinv s hs with h | h <;> subst h <;> decide
  · intro hrec
    subst hrec
    exact MonitorStep.restart
  · intro p t hstep
    cases hstep
    exact ⟨rfl, rfl⟩

/-- Witness for `c9_monitor_never_stops` at concrete reachable states:
the initial state, and the recover handler reached through a fault. -/
theorem c9_monitor_never_stops_witness :
    MonitorState.running ≠ MonitorState.stopped
    ∧ MonitorStep MonitorState.recovering 1 MonitorState.running :=
  ⟨(c9_monitor_never_stops MonitorState.running Relation.ReflTransGen.refl).1,
   (c9_monitor_never_stops MonitorState.recovering
      (Relation.ReflTransGen.single ⟨0, MonitorStep.fault⟩)).2.1 rfl⟩

end Pike




